import Mathlib

/-!
Verification of the query-directive parsing and range-algebra engine of
`src/server/_params.py` (delphi-epidata).

The Python source is shallowly embedded: strings become `List Char` (with
`String` at the interfaces), Python `int` becomes `Int`, fallible code returns
`Except PyErr`.  The concrete regular expressions of the source
(compiled with `re.MULTILINE`) are embedded as deterministic matching
functions over `List Char`; Python's `$` under MULTILINE matches at the end of
the string or immediately before a newline, which the embedding reproduces.

Helper functions of the repository that are not part of the provided source
tree (`utils.days_to_ranges`, `utils.weeks_to_ranges`, `utils.days_in_range`,
`utils.weeks_in_range`, `_validate.extract_strings`, `_validate.extract_dates`,
`_validate.require_any`, `_validate.require_all`) are modelled from the
specification; each such definition carries a doc comment starting with
`Modelled from the spec:`.
-/

/-! ## Python-style string primitives (ASCII model) -/

/-- One character of Python's `[\w\-_]` class, restricted to ASCII: a letter,
a digit, an underscore or a dash. -/
def isWordChar (c : Char) : Bool :=
  c.isAlphanum || c = '_' || c = '-'

/-- Python `str.strip()`: drop whitespace from both ends. -/
def pyStrip (l : List Char) : List Char :=
  ((l.dropWhile Char.isWhitespace).reverse.dropWhile Char.isWhitespace).reverse

/-- Python `str.lower()`, restricted to ASCII case folding. -/
def pyLower (l : List Char) : List Char :=
  l.map Char.toLower

/-- Python `str.split(sep)` for a one-character separator (full split, so the
empty string yields one empty piece). -/
def splitOnChar (c : Char) : List Char → List (List Char)
  | [] => [[]]
  | x :: xs =>
    if x = c then [] :: splitOnChar c xs
    else
      match splitOnChar c xs with
      | [] => [[x]]
      | h :: t => (x :: h) :: t

/-- Python `sep.join(pieces)` for a one-character separator. -/
def joinOnChar (c : Char) : List (List Char) → List Char
  | [] => []
  | [x] => x
  | x :: y :: t => x ++ c :: joinOnChar c (y :: t)

/-- Number of occurrences of `'-'`, Python `s.count("-")`. -/
def countDashes (l : List Char) : Nat :=
  l.count '-'

/-- Python `str.replace("-", "")`. -/
def removeDashes (l : List Char) : List Char :=
  l.filter (fun c => ¬ (c = '-'))

/-- Decimal value of a digit list (most significant digit first). -/
def digitsVal (l : List Char) : Int :=
  ((l.foldl (fun acc c => acc * 10 + (c.toNat - 48)) 0 : Nat) : Int)

/-- Core of Python `int(s)` after whitespace stripping: one optional sign,
then a non-empty run of ASCII digits. -/
def pyIntCore : List Char → Option Int
  | [] => none
  | c :: ds =>
    if c = '-' then if ds ≠ [] ∧ ds.all Char.isDigit then some (-(digitsVal ds)) else none
    else if c = '+' then if ds ≠ [] ∧ ds.all Char.isDigit then some (digitsVal ds) else none
    else if (c :: ds).all Char.isDigit then some (digitsVal (c :: ds)) else none

/-- Python `int(s)`: strip surrounding whitespace, allow one sign, then require
a non-empty run of ASCII digits; `none` models the `ValueError` that `int`
raises otherwise. -/
def pyInt (l : List Char) : Option Int :=
  pyIntCore (pyStrip l)

/-- First split of a list at a one-character separator: `some (before, after)`
at the first occurrence, `none` when absent. -/
def splitFirstChar (c : Char) : List Char → Option (List Char × List Char)
  | [] => none
  | x :: xs =>
    if x = c then some ([], xs)
    else (splitFirstChar c xs).map (fun p => (x :: p.1, p.2))

/-- Python `s.split("-", 2)`: split on a one-character separator at most
twice, so the result has at most three pieces. -/
def pySplit2Char (c : Char) (s : List Char) : List (List Char) :=
  match splitFirstChar c s with
  | none => [s]
  | some (a, rest) =>
    match splitFirstChar c rest with
    | none => [a, rest]
    | some (b, rest2) => [a, b, rest2]

/-- First split of a list at a multi-character separator. -/
def splitFirstSub (sep : List Char) : List Char → Option (List Char × List Char)
  | [] => none
  | x :: xs =>
    if sep.isPrefixOf (x :: xs) then some ([], (x :: xs).drop sep.length)
    else (splitFirstSub sep xs).map (fun p => (x :: p.1, p.2))

/-- Python `s.split("--", 2)` for a multi-character separator. -/
def pySplit2Sub (sep : List Char) (s : List Char) : List (List Char) :=
  match splitFirstSub sep s with
  | none => [s]
  | some (a, rest) =>
    match splitFirstSub sep rest with
    | none => [a, rest]
    | some (b, rest2) => [a, b, rest2]

/-! ## Embedded regular expressions

All patterns in the source are compiled with `re.MULTILINE` and used through
`re.match`, i.e. anchored at the start of the string with `$` matching at the
end of the string or just before a `'\n'`. -/

/-- Under `re.MULTILINE`, `$` matches at the end of the string or immediately
before a newline. -/
def dollarAt : List Char → Bool
  | [] => true
  | c :: _ => c = '\n'

/-- Matcher for `re.match(r"^([\w\-_]+):(.*)$", entry, re.MULTILINE)`:
group 1 is the maximal non-empty run of word characters, which must be
followed by `':'`; group 2 (`.*`) is everything after the colon up to the
first newline; `$` then always matches there. -/
def matchEntry (entry : List Char) : Option (List Char × List Char) :=
  if entry.takeWhile isWordChar = [] then none
  else
    match entry.drop (entry.takeWhile isWordChar).length with
    | ':' :: rest =>
      some (entry.takeWhile isWordChar, rest.takeWhile (fun c => ¬ (c = '\n')))
    | _ => none

/-- Matcher for `re.match(r"^([\w\-_]+):([\w\-_]+)$", v, re.MULTILINE)`:
two maximal non-empty word-character runs around a colon, with `$` (end of
string or a newline) immediately after the second run. -/
def matchSingle (v : List Char) : Option (List Char × List Char) :=
  if v.takeWhile isWordChar = [] then none
  else
    match v.drop (v.takeWhile isWordChar).length with
    | ':' :: rest =>
      if rest.takeWhile isWordChar = [] then none
      else if dollarAt (rest.drop (rest.takeWhile isWordChar).length) then
        some (v.takeWhile isWordChar, rest.takeWhile isWordChar)
      else none
    | _ => none

/-- Checks a fixed-shape pattern (a list of one-character predicates) against
the start of a string and then requires `$` (MULTILINE) at the stop position.
This embeds the anchored digit/dash date patterns of the source. -/
def shapeCheck : List (Char → Bool) → List Char → Bool
  | [], rest => dollarAt rest
  | _ :: _, [] => false
  | p :: ps, c :: cs => p c && shapeCheck ps cs

/-- Predicate for a literal dash inside a date pattern. -/
def isDashChar (c : Char) : Bool := c = '-'

/-- Shape of `^(\d{6})$`. -/
def shapeW6 : List (Char → Bool) := List.replicate 6 Char.isDigit

/-- Shape of `^(\d{6})-(\d{6})$`. -/
def shapeW6W6 : List (Char → Bool) :=
  List.replicate 6 Char.isDigit ++ [isDashChar] ++ List.replicate 6 Char.isDigit

/-- Shape of `^(\d{8})$`. -/
def shapeD8 : List (Char → Bool) := List.replicate 8 Char.isDigit

/-- Shape of `^(\d{4}-\d{2}-\d{2})$`. -/
def shapeIso : List (Char → Bool) :=
  List.replicate 4 Char.isDigit ++ [isDashChar] ++ List.replicate 2 Char.isDigit
    ++ [isDashChar] ++ List.replicate 2 Char.isDigit

/-- Shape of `^(\d{8})-(\d{8})$`. -/
def shapeD8D8 : List (Char → Bool) :=
  List.replicate 8 Char.isDigit ++ [isDashChar] ++ List.replicate 8 Char.isDigit

/-- Shape of `^(\d{4}-\d{2}-\d{2})--(\d{4}-\d{2}-\d{2})$`. -/
def shapeIsoIso : List (Char → Bool) :=
  shapeIso ++ [isDashChar, isDashChar] ++ shapeIso

/-! ## Calendar model

The repository's `utils` module (not part of the provided source tree)
supplies the day/week calendar arithmetic used by `TimeFilter.count` and
`TimeFilter.to_ranges`.  It is modelled from the spec here. -/

/-- Modelled from the spec: Gregorian leap-year rule, used by the day and
week calendars of the missing `utils` module. -/
def isLeapYear (y : Nat) : Bool :=
  y % 4 == 0 && (y % 100 != 0 || y % 400 == 0)

/-- Modelled from the spec: number of days of month `m` of year `y` in the
Gregorian calendar (0 for a month outside 1..12). -/
def daysInMonth (y m : Nat) : Nat :=
  if m = 1 ∨ m = 3 ∨ m = 5 ∨ m = 7 ∨ m = 8 ∨ m = 10 ∨ m = 12 then 31
  else if m = 4 ∨ m = 6 ∨ m = 9 ∨ m = 11 then 30
  else if m = 2 then (if isLeapYear y then 29 else 28)
  else 0

/-- Modelled from the spec: the calendar successor of a day in `YYYYMMDD`
integer encoding ("adjacent ... under the day calendar"). -/
def nextDayN (n : Nat) : Nat :=
  let y := n / 10000
  let m := n / 100 % 100
  let d := n % 100
  if d < daysInMonth y m then n + 1
  else if m < 12 then y * 10000 + (m + 1) * 100 + 1
  else (y + 1) * 10000 + 101

/-- Successor day on `Int`-encoded `YYYYMMDD` values. -/
def nextDay (v : Int) : Int := (nextDayN v.toNat : Int)

/-- Julian day number of the Gregorian date `(y, m, d)` (standard arithmetic
formula; all intermediate values stay non-negative for `y ≥ 0`). -/
def jdn (y m d : Nat) : Nat :=
  let a := (14 - m) / 12
  let y2 := y + 4800 - a
  let m2 := m + 12 * a - 3
  d + (153 * m2 + 2) / 5 + 365 * y2 + y2 / 4 - y2 / 100 + y2 / 400 - 32045

/-- Linear day index of an `Int`-encoded `YYYYMMDD` value. -/
def rataDie (v : Int) : Int :=
  let n := v.toNat
  (jdn (n / 10000) (n / 100 % 100) (n % 100) : Int)

/-- Modelled from the spec: `utils.days_in_range`, the inclusive number of
calendar days spanned by a `(start, end)` day range. -/
def days_in_range (p : Int × Int) : Int :=
  rataDie p.2 - rataDie p.1 + 1

/-- Day of the week of January 1 of year `y` (0 = Sunday). -/
def dayOfWeekJan1 (y : Nat) : Nat :=
  (jdn y 1 1 + 1) % 7

/-- Modelled from the spec: number of epidemiological (MMWR) weeks in year
`y` — 53 when January 1 falls on a Wednesday, or on a Tuesday of a leap
year; 52 otherwise. -/
def weeksInYear (y : Nat) : Nat :=
  if dayOfWeekJan1 y = 3 ∨ (isLeapYear y ∧ dayOfWeekJan1 y = 2) then 53 else 52

/-- Modelled from the spec: the calendar successor of an epiweek in `YYYYWW`
integer encoding ("adjacent ... under the week calendar"). -/
def nextWeekN (n : Nat) : Nat :=
  let y := n / 100
  let w := n % 100
  if w < weeksInYear y then n + 1 else (y + 1) * 100 + 1

/-- Successor week on `Int`-encoded `YYYYWW` values. -/
def nextWeek (v : Int) : Int := (nextWeekN v.toNat : Int)

/-- Modelled from the spec: `utils.weeks_in_range`, the inclusive number of
epiweeks spanned by a `(start, end)` week range: the week-number difference
plus the total week count of the intervening years. -/
def weeks_in_range (p : Int × Int) : Int :=
  let sy := p.1.toNat / 100
  let ey := p.2.toNat / 100
  ((p.2.toNat % 100 : Nat) : Int) - ((p.1.toNat % 100 : Nat) : Int)
    + ((((List.range (ey - sy)).map (fun i => weeksInYear (sy + i))).sum : Nat) : Int) + 1

/-! ## Time values and the list-to-ranges collapse -/

/-- A parsed time entry: a scalar integer key or an inclusive range pair
(Python `Union[int, Tuple[int, int]]`). -/
abbrev TimeValue := Sum Int (Int × Int)

/-- View of a time entry as an inclusive interval. -/
def tvToInterval : TimeValue → Int × Int
  | .inl v => (v, v)
  | .inr p => p

/-- View of an inclusive interval as a time entry: a one-element interval is
a scalar, anything else a range. -/
def intervalToTv (p : Int × Int) : TimeValue :=
  if p.1 = p.2 then .inl p.1 else .inr p

/-- Ordering of intervals by their start. -/
def leStart (x y : Int × Int) : Prop := x.1 ≤ y.1

instance : DecidableRel leStart := fun x y => Int.decLe x.1 y.1

instance : IsTotal (Int × Int) leStart :=
  ⟨fun a b => le_total a.1 b.1⟩

instance : IsTrans (Int × Int) leStart :=
  ⟨fun _ _ _ h1 h2 => le_trans h1 h2⟩

/-- Coalescing walk over a start-sorted list of inclusive intervals: the
next interval is absorbed into the current one when it starts at or before
the successor of the current end (overlapping or adjacent under `succ`),
otherwise the current interval is emitted. -/
def mergeIntervalsAux (succ : Int → Int) (cur : Int × Int) :
    List (Int × Int) → List (Int × Int)
  | [] => [cur]
  | b :: rest =>
    if b.1 ≤ succ cur.2 then mergeIntervalsAux succ (cur.1, max cur.2 b.2) rest
    else cur :: mergeIntervalsAux succ b rest

/-- Coalesce a start-sorted list of inclusive intervals: two consecutive
intervals are merged when the second one starts at or before the successor of
the first one's end (i.e. they overlap or are adjacent under `succ`). -/
def mergeIntervals (succ : Int → Int) : List (Int × Int) → List (Int × Int)
  | [] => []
  | a :: l => mergeIntervalsAux succ a l

/-- Modelled from the spec: the list-to-ranges collapse underlying
`utils.days_to_ranges` and `utils.weeks_to_ranges` — sort the entries as
inclusive intervals, coalesce contiguous runs under the calendar successor
into single inclusive ranges, and leave isolated values as scalars. -/
def collapseValues (succ : Int → Int) (vs : List TimeValue) : List TimeValue :=
  (mergeIntervals succ (List.insertionSort leStart (vs.map tvToInterval))).map intervalToTv

/-- Modelled from the spec: `utils.days_to_ranges`. -/
def days_to_ranges (vs : List TimeValue) : List TimeValue :=
  collapseValues nextDay vs

/-- Modelled from the spec: `utils.weeks_to_ranges`. -/
def weeks_to_ranges (vs : List TimeValue) : List TimeValue :=
  collapseValues nextWeek vs

/-! ## Errors and the filter data model -/

/-- Outcomes of the Python code that are not normal returns:
`validationFailed` embeds `ValidationFailedException(msg)`, while
`valueError` and `typeError` embed the built-in exceptions that untyped
Python raises on the corresponding slips. -/
inductive PyErr where
  | validationFailed (msg : String)
  | valueError
  | typeError
deriving DecidableEq, Repr

instance {ε α : Type} [DecidableEq ε] [DecidableEq α] : DecidableEq (Except ε α) :=
  fun x y =>
    match x, y with
    | .ok a, .ok b =>
      if h : a = b then .isTrue (by rw [h]) else .isFalse (by intro hc; cases hc; exact h rfl)
    | .error a, .error b =>
      if h : a = b then .isTrue (by rw [h]) else .isFalse (by intro hc; cases hc; exact h rfl)
    | .ok _, .error _ => .isFalse (by intro hc; cases hc)
    | .error _, .ok _ => .isFalse (by intro hc; cases hc)

/-- `GeoFilter` dataclass: a geography discriminator and either a boolean
(only `True`, the wildcard, is ever produced by the parsers) or an explicit
value list. -/
structure GeoFilter where
  geo_type : String
  geo_values : Sum Bool (List String)
deriving DecidableEq, Repr

/-- `SourceSignalFilter` dataclass. -/
structure SourceSignalFilter where
  source : String
  signal : Sum Bool (List String)
deriving DecidableEq, Repr

/-- `TimeFilter` dataclass: a granularity string (`"day"` or `"week"`) and
either a boolean or an explicit list of scalars and ranges. -/
structure TimeFilter where
  time_type : String
  time_values : Sum Bool (List TimeValue)
deriving DecidableEq, Repr

/-- `GeoFilter.count`: `inf` for the `True` wildcard, `0` for `False`, the
element count otherwise (the Python float `inf` is modelled as `⊤`). -/
def GeoFilter.count (f : GeoFilter) : WithTop Int :=
  match f.geo_values with
  | .inl b => if b then ⊤ else 0
  | .inr vs => ((vs.length : Int) : WithTop Int)

/-- `SourceSignalFilter.count`. -/
def SourceSignalFilter.count (f : SourceSignalFilter) : WithTop Int :=
  match f.signal with
  | .inl b => if b then ⊤ else 0
  | .inr vs => ((vs.length : Int) : WithTop Int)

/-- `TimeFilter.count`: `inf` for the `True` wildcard, `0` for `False`, and
otherwise the sum over the entries of 1 for a scalar and the inclusive
day/week span for a range. -/
def TimeFilter.count (f : TimeFilter) : WithTop Int :=
  match f.time_values with
  | .inl b => if b then ⊤ else 0
  | .inr vs =>
    (((vs.map (fun v =>
      match v with
      | .inl _ => (1 : Int)
      | .inr p => if f.time_type = "week" then weeks_in_range p else days_in_range p)).sum : Int) :
        WithTop Int)

/-- `TimeFilter.to_ranges`: returns the filter with its explicit value list
collapsed to ranges (`weeks_to_ranges` for week granularity, `days_to_ranges`
otherwise); a boolean value is returned unchanged. -/
def TimeFilter.to_ranges (f : TimeFilter) : TimeFilter :=
  match f.time_values with
  | .inl b => ⟨f.time_type, .inl b⟩
  | .inr vs =>
    if f.time_type = "week" then ⟨f.time_type, .inr (weeks_to_ranges vs)⟩
    else ⟨f.time_type, .inr (days_to_ranges vs)⟩

/-! ## Python repr (for error messages embedding f-strings) -/

/-- Python `repr` of an int (identical to decimal printing). -/
def pyReprInt (i : Int) : String := toString i

/-- Python `repr` of a string without quote characters (ASCII model). -/
def pyReprStr (s : String) : String := "'" ++ s ++ "'"

/-- Python `repr` of a scalar-or-range time entry. -/
def pyReprTimeValue : TimeValue → String
  | .inl v => pyReprInt v
  | .inr p => "(" ++ pyReprInt p.1 ++ ", " ++ pyReprInt p.2 ++ ")"

/-- Python `repr` of the `Union[bool, TimeValues]` field. -/
def pyReprTimeValues : Sum Bool (List TimeValue) → String
  | .inl true => "True"
  | .inl false => "False"
  | .inr vs => "[" ++ String.intercalate ", " (vs.map pyReprTimeValue) ++ "]"

/-- Python dataclass `repr` of a `TimeFilter`. -/
def pyReprTimeFilter (f : TimeFilter) : String :=
  "TimeFilter(time_type=" ++ pyReprStr f.time_type ++ ", time_values="
    ++ pyReprTimeValues f.time_values ++ ")"

/-- Python `str` of a list of `TimeFilter`s, as interpolated by the f-string
of the granularity-conflict message. -/
def pyReprTimeFilterList (tfs : List TimeFilter) : String :=
  "[" ++ String.intercalate ", " (tfs.map pyReprTimeFilter) ++ "]"

/-! ## The parsing engine (embedding of `_params.py`) -/

/-- `_verify_range(start, end)`: equal bounds collapse to the scalar, ordered
bounds stay a pair, and an inverted range raises
`ValidationFailedException(f"the given range {start}-{end} is inverted")`. -/
def _verify_range (start : Int) (stop : Int) : Except PyErr TimeValue :=
  if start = stop then .ok (.inl start)
  else if stop > start then .ok (.inr (start, stop))
  else .error (.validationFailed
    ("the given range " ++ toString start ++ "-" ++ toString stop ++ " is inverted"))

/-- Error message of `parse_week_value`. -/
def weekFormatMsg (s : List Char) : String :=
  String.mk s ++ " does not match a known format YYYYWW or YYYYWW-YYYYWW"

/-- `parse_week_value(time_value)`: a 6-digit scalar at dash count 0, a
6-digit pair at dash count 1, a format failure otherwise. -/
def parse_week_value (s : List Char) : Except PyErr TimeValue :=
  if countDashes s = 0 then
    if shapeCheck shapeW6 s then
      match pyInt s with
      | some v => .ok (.inl v)
      | none => .error .valueError
    else .error (.validationFailed (weekFormatMsg s))
  else if countDashes s = 1 then
    if shapeCheck shapeW6W6 s then
      match pySplit2Char '-' s with
      | [first, last] =>
        match pyInt first, pyInt last with
        | some x, some y => _verify_range x y
        | _, _ => .error .valueError
      | _ => .error .valueError
    else .error (.validationFailed (weekFormatMsg s))
  else .error (.validationFailed (weekFormatMsg s))

/-- Error message of `parse_day_value`. -/
def dayFormatMsg (s : List Char) : String :=
  String.mk s ++
    " does not match a known format YYYYMMDD, YYYY-MM-DD, YYYYMMDD-YYYYMMDD, or YYYY-MM-DD--YYYY-MM-DD"

/-- `parse_day_value(time_value)`: dash count 0 is a compact scalar, 2 an ISO
scalar (dashes stripped before conversion), 1 a compact range, 6 an ISO
range; every other dash count fails with the day format message. -/
def parse_day_value (s : List Char) : Except PyErr TimeValue :=
  if countDashes s = 0 then
    if shapeCheck shapeD8 s then
      match pyInt s with
      | some v => .ok (.inl v)
      | none => .error .valueError
    else .error (.validationFailed (dayFormatMsg s))
  else if countDashes s = 2 then
    if shapeCheck shapeIso s then
      match pyInt (removeDashes s) with
      | some v => .ok (.inl v)
      | none => .error .valueError
    else .error (.validationFailed (dayFormatMsg s))
  else if countDashes s = 1 then
    if shapeCheck shapeD8D8 s then
      match pySplit2Char '-' s with
      | [first, last] =>
        match pyInt first, pyInt last with
        | some x, some y => _verify_range x y
        | _, _ => .error .valueError
      | _ => .error .valueError
    else .error (.validationFailed (dayFormatMsg s))
  else if countDashes s = 6 then
    if shapeCheck shapeIsoIso s then
      match pySplit2Sub ['-', '-'] s with
      | [first, last] =>
        match pyInt (removeDashes first), pyInt (removeDashes last) with
        | some x, some y => _verify_range x y
        | _, _ => .error .valueError
      | _ => .error .valueError
    else .error (.validationFailed (dayFormatMsg s))
  else .error (.validationFailed (dayFormatMsg s))

/-- Error message of `_parse_common_multi_arg` for a non-matching entry. -/
def multiArgMsg (key : String) (entry : List Char) : String :=
  key ++ " param: " ++ String.mk entry ++ " is not matching <" ++ key
    ++ "_type>:<" ++ key ++ "_values> syntax"

/-- One loop iteration of `_parse_common_multi_arg`: match the entry against
the directive grammar, fold the discriminator and value portion to lower case
and trim them, recognize a lone `*` as the wildcard, and otherwise split the
value portion on commas trimming each piece. -/
def processEntry (key : String) (entry : List Char) :
    Except PyErr (String × Sum Bool (List String)) :=
  match matchEntry entry with
  | none => .error (.validationFailed (multiArgMsg key entry))
  | some (g1, g2) =>
    let t := pyLower (pyStrip g1)
    let v := pyLower (pyStrip g2)
    if v = ['*'] then .ok (String.mk t, .inl true)
    else .ok (String.mk t, .inr (((splitOnChar ',' v).map (fun g => String.mk (pyStrip g)))))

/-- Error-propagating map over a list (the Python `for` loop with `append`
that raises at the first failing entry). -/
def listMapE (f : α → Except PyErr β) : List α → Except PyErr (List β)
  | [] => .ok []
  | a :: l =>
    match f a with
    | .error e => .error e
    | .ok b =>
      match listMapE f l with
      | .error e => .error e
      | .ok bs => .ok (b :: bs)

/-- `_parse_common_multi_arg(key)` applied to the `;`-join of every occurrence
of the parameter: an empty line yields the empty list, otherwise every
`;`-separated entry is processed in order. -/
def _parse_common_multi_arg (key : String) (line : List Char) :
    Except PyErr (List (String × Sum Bool (List String))) :=
  if line = [] then .ok []
  else listMapE (processEntry key) (splitOnChar ';' line)

/-! ## Request model -/

/-- The immutable request-parameter snapshot: an ordered multi-list of
key/value occurrences (the parameter-access facade of the spec). -/
structure Request where
  params : List (String × String)
deriving DecidableEq, Repr

/-- `request.values.get(key)`: the first value of the key, if any. -/
def Request.getFirst (r : Request) (key : String) : Option String :=
  (r.params.find? (fun p => p.1 = key)).map (fun p => p.2)

/-- `request.values.getlist(key)`: every value of the key, in order. -/
def Request.getlist (r : Request) (key : String) : List String :=
  (r.params.filter (fun p => p.1 = key)).map (fun p => p.2)

/-- `key in request.values`. -/
def Request.hasKey (r : Request) (key : String) : Bool :=
  r.params.any (fun p => p.1 = key)

/-- The request with every occurrence of one key removed. -/
def Request.dropKey (r : Request) (key : String) : Request :=
  ⟨r.params.filter (fun p => ¬ (p.1 = key))⟩

/-- Python truthiness of `request.values.get(key)`: present and non-empty. -/
def truthyOpt : Option String → Bool
  | none => false
  | some v => ¬ (v = "")

/-- The `;`-joined raw line of a possibly-repeated parameter
(`";".join(request.values.getlist(key))`). -/
def Request.joinedLine (r : Request) (key : String) : List Char :=
  joinOnChar ';' ((r.getlist key).map String.data)

/-- `_parse_single_arg(key)`: requires a present non-empty value matching
`^([\w\-_]+):([\w\-_]+)$` and returns both groups trimmed and lower-cased. -/
def _parse_single_arg (key : String) (r : Request) : Except PyErr (String × String) :=
  match r.getFirst key with
  | none => .error (.validationFailed (key ++ " param is required"))
  | some v =>
    if v = "" then .error (.validationFailed (key ++ " param is required"))
    else
      match matchSingle v.data with
      | none => .error (.validationFailed
          (key ++ " param: is not matching <" ++ key ++ "_type>:<" ++ key ++ "_value> syntax"))
      | some (g1, g2) => .ok (String.mk (pyLower (pyStrip g1)), String.mk (pyLower (pyStrip g2)))

/-- `_parse_time_filter(time_type, time_values)`: a boolean passes through, a
week group parses every token with `parse_week_value`, a day group with
`parse_day_value`, and any other granularity string fails. -/
def _parse_time_filter (time_type : String) (time_values : Sum Bool (List String)) :
    Except PyErr TimeFilter :=
  match time_values with
  | .inl b => .ok ⟨time_type, .inl b⟩
  | .inr vs =>
    if time_type = "week" then
      match listMapE (fun t => parse_week_value t.data) vs with
      | .error e => .error e
      | .ok l => .ok ⟨"week", .inr l⟩
    else if time_type = "day" then
      match listMapE (fun t => parse_day_value t.data) vs with
      | .error e => .error e
      | .ok l => .ok ⟨"day", .inr l⟩
    else .error (.validationFailed
      ("time param: " ++ time_type ++ " is not one of \"day\" or \"week\""))

/-- Granularity-conflict message of `parse_time_arg`
(`f'{key}: {time_filters} mixes "day" and "week" time types'`). -/
def mixesMsg (key : String) (tfs : List TimeFilter) : String :=
  key ++ ": " ++ pyReprTimeFilterList tfs ++ " mixes \"day\" and \"week\" time types"

/-- The merge loop of `parse_time_arg` (lines 238-243): return the first
wildcard filter, extend the accumulator with every explicit value list
otherwise (`merged.extend` on a boolean `False` raises `TypeError`). -/
def collectMerged : List TimeFilter → Except PyErr (Sum TimeFilter (List TimeValue))
  | [] => .ok (.inr [])
  | tf :: rest =>
    match tf.time_values with
    | .inl true => .ok (.inl tf)
    | .inl false => .error .typeError
    | .inr vs =>
      match collectMerged rest with
      | .error e => .error e
      | .ok (.inl w) => .ok (.inl w)
      | .ok (.inr acc) => .ok (.inr (vs ++ acc))

/-- The merging tail of `parse_time_arg` (lines 226-244): zero filters give
`none`, one filter is returned unchanged, otherwise the granularities must
agree (`set` cardinality check), a wildcard short-circuits, and the
concatenated explicit values are collapsed with `to_ranges`. -/
def mergeTimeFilters (key : String) (tfs : List TimeFilter) :
    Except PyErr (Option TimeFilter) :=
  match tfs with
  | [] => .ok none
  | [tf] => .ok (some tf)
  | tf0 :: _ :: _ =>
    if 2 ≤ ((tfs.map TimeFilter.time_type).dedup).length then
      .error (.validationFailed (mixesMsg key tfs))
    else
      match collectMerged tfs with
      | .error e => .error e
      | .ok (.inl w) => .ok (some w)
      | .ok (.inr merged) => .ok (some (TimeFilter.mk tf0.time_type (.inr merged)).to_ranges)

/-- `parse_time_arg(key)` on the joined raw line: tokenize the directives,
parse each group into a `TimeFilter`, then merge. -/
def parse_time_arg (key : String) (line : List Char) : Except PyErr (Option TimeFilter) :=
  match _parse_common_multi_arg key line with
  | .error e => .error e
  | .ok pairs =>
    match listMapE (fun p => _parse_time_filter p.1 p.2) pairs with
    | .error e => .error e
    | .ok tfs => mergeTimeFilters key tfs

/-- `parse_geo_arg(key)`: one `GeoFilter` per tokenized directive. -/
def parse_geo_arg (key : String) (line : List Char) : Except PyErr (List GeoFilter) :=
  match _parse_common_multi_arg key line with
  | .error e => .error e
  | .ok pairs => .ok (pairs.map (fun p => GeoFilter.mk p.1 p.2))

/-- `parse_source_signal_arg(key)`. -/
def parse_source_signal_arg (key : String) (line : List Char) :
    Except PyErr (List SourceSignalFilter) :=
  match _parse_common_multi_arg key line with
  | .error e => .error e
  | .ok pairs => .ok (pairs.map (fun p => SourceSignalFilter.mk p.1 p.2))

/-! ## Legacy compatibility adapters -/

/-- Modelled from the spec: `_validate.require_any` — at least one of the
named parameters must be supplied (with `empty=True`, mere presence of the
key suffices), otherwise a MissingParameterError is raised. -/
def require_any (r : Request) (keys : List String) (empty : Bool) : Except PyErr Unit :=
  if keys.any (fun k => truthyOpt (r.getFirst k) || (empty && r.hasKey k)) then .ok ()
  else .error (.validationFailed
    ("missing parameter: need one of [" ++ String.intercalate ", " keys ++ "]"))

/-- Modelled from the spec: `_validate.require_all` — every named parameter
must be supplied non-empty, otherwise a MissingParameterError is raised. -/
def require_all (r : Request) (keys : List String) : Except PyErr Unit :=
  if keys.all (fun k => truthyOpt (r.getFirst k)) then .ok ()
  else .error (.validationFailed
    ("missing parameter: need [" ++ String.intercalate ", " keys ++ "]"))

/-- Modelled from the spec: `_validate.extract_strings` — the value of the
first present key among the given legacy parameter names, split on commas;
`none` when no key is present or the value is empty (legacy values are not
colon-delimited). -/
def extract_strings (r : Request) (keys : List String) : Option (List String) :=
  match keys.find? (fun k => r.hasKey k) with
  | none => none
  | some k =>
    match r.getFirst k with
    | none => none
    | some v =>
      if v = "" then none
      else some ((splitOnChar ',' v.data).map String.mk)

/-- Modelled from the spec: `_validate.extract_dates` — the legacy
`time_values` parameter is a comma-separated list of day or week tokens;
each token is parsed with the Scalar Value Parser of its granularity (a
6-digit leading segment means a week) and each range is normalized through
the Range Normalizer. -/
def extract_dates (r : Request) (key : String) : Except PyErr (List TimeValue) :=
  match r.getFirst key with
  | none => .error .typeError
  | some v =>
    listMapE
      (fun t =>
        if (t.takeWhile (fun c => ¬ (c = '-'))).length = 6 then parse_week_value t
        else parse_day_value t)
      (splitOnChar ',' v.data)

/-- `parse_geo_filters()`: a truthy legacy marker `geo_type` selects the
legacy branch (companion `geo_value`/`geo_values` parameters, lone `*` as
wildcard); otherwise the new-style `geo` parameter must contain a colon and
is handed to the directive tokenizer. -/
def parse_geo_filters (r : Request) : Except PyErr (List GeoFilter) :=
  if truthyOpt (r.getFirst "geo_type") then
    match r.getFirst "geo_type" with
    | none => .error .typeError
    | some geo_type =>
      match require_any r ["geo_value", "geo_values"] true with
      | .error e => .error e
      | .ok _ =>
        match extract_strings r ["geo_values", "geo_value"] with
        | none => .error .typeError
        | some geo_values =>
          if geo_values = ["*"] then .ok [GeoFilter.mk geo_type (.inl true)]
          else .ok [GeoFilter.mk geo_type (.inr geo_values)]
  else
    if ((r.getFirst "geo").getD "").data.contains ':' then parse_geo_arg "geo" (r.joinedLine "geo")
    else .error (.validationFailed "missing parameter: geo or (geo_type and geo_value[s])")

/-- `parse_source_signal_filters()`: a truthy legacy marker `data_source`
selects the legacy branch, otherwise the new-style `signal` parameter must
contain a colon. -/
def parse_source_signal_filters (r : Request) : Except PyErr (List SourceSignalFilter) :=
  if truthyOpt (r.getFirst "data_source") then
    match r.getFirst "data_source" with
    | none => .error .typeError
    | some ds =>
      match require_any r ["signal", "signals"] true with
      | .error e => .error e
      | .ok _ =>
        match extract_strings r ["signals", "signal"] with
        | none => .error .typeError
        | some signals =>
          if signals = ["*"] then .ok [SourceSignalFilter.mk ds (.inl true)]
          else .ok [SourceSignalFilter.mk ds (.inr signals)]
  else
    if ((r.getFirst "signal").getD "").data.contains ':' then
      parse_source_signal_arg "signal" (r.joinedLine "signal")
    else .error (.validationFailed "missing parameter: signal or (data_source and signal[s])")

/-- `parse_time_filters()`: a truthy legacy marker `time_type` selects the
legacy branch (`require_all("time_type", "time_values")`, then
`extract_dates`); otherwise the new-style `time` parameter must contain a
colon and is handed to `parse_time_arg`. -/
def parse_time_filters (r : Request) : Except PyErr (Option TimeFilter) :=
  if truthyOpt (r.getFirst "time_type") then
    match r.getFirst "time_type" with
    | none => .error .typeError
    | some time_type =>
      match require_all r ["time_type", "time_values"] with
      | .error e => .error e
      | .ok _ =>
        match extract_dates r "time_values" with
        | .error e => .error e
        | .ok time_values => .ok (some (TimeFilter.mk time_type (.inr time_values)))
  else
    if ((r.getFirst "time").getD "").data.contains ':' then parse_time_arg "time" (r.joinedLine "time")
    else .error (.validationFailed "missing parameter: time or (time_type and time_values)")

/-! ## Specification-side notions used by the claims -/

/-- Declarative reading of the directive-entry grammar
`^([\w\-_]+):(.*)$` under `re.MULTILINE`: the entry decomposes into a
non-empty run of word characters, a colon, and a newline-free value portion
followed by the end of the string or a newline. -/
def EntryMatch (entry t v : List Char) : Prop :=
  t ≠ [] ∧ (∀ c ∈ t, isWordChar c) ∧ (∀ c ∈ v, ¬ (c = '\n')) ∧
    (entry = t ++ ':' :: v ∨ ∃ tail, entry = t ++ ':' :: (v ++ '\n' :: tail))

/-- The (discriminator, values) pair the spec prescribes for a matching
entry: discriminator and value portion trimmed and lower-cased, a lone `*`
meaning the wildcard, and any other value portion split on commas with each
piece trimmed. -/
def pairSpec (t v : List Char) : String × Sum Bool (List String) :=
  (String.mk (pyLower (pyStrip t)),
    if pyLower (pyStrip v) = ['*'] then .inl true
    else .inr ((splitOnChar ',' (pyLower (pyStrip v))).map (fun g => String.mk (pyStrip g))))

/-- Every range stored in the filter's explicit value list has strictly
ordered bounds. -/
def rangesStrict (f : TimeFilter) : Prop :=
  match f.time_values with
  | .inl _ => True
  | .inr vs => ∀ v ∈ vs, ∀ a b : Int, v = .inr (a, b) → a < b

/-! ## Basic list/char lemmas -/

theorem drop_length_takeWhile (p : Char → Bool) (l : List Char) :
    l.drop (l.takeWhile p).length = l.dropWhile p := by
  induction l with
  | nil => rfl
  | cons c cs ih =>
    by_cases h : p c
    · simp [List.takeWhile_cons, List.dropWhile_cons, h, ih]
    · simp [List.takeWhile_cons, List.dropWhile_cons, h]

theorem takeWhile_append_all (p : Char → Bool) (t rest : List Char)
    (h : ∀ c ∈ t, p c) :
    (t ++ rest).takeWhile p = t ++ rest.takeWhile p := by
  induction t with
  | nil => rfl
  | cons c cs ih =>
    have hc : p c := h c (by simp)
    simp [List.takeWhile_cons, hc, ih (fun x hx => h x (by simp [hx]))]

theorem head_dropWhile_false (p : Char → Bool) (l : List Char) (c : Char)
    (cs : List Char) (h : l.dropWhile p = c :: cs) : p c = false := by
  induction l with
  | nil => simp at h
  | cons x xs ih =>
    by_cases hx : p x
    · exact ih (by simpa [List.dropWhile_cons, hx] using h)
    · rw [List.dropWhile_cons_of_neg hx] at h
      cases h
      exact Bool.not_eq_true (p c) |>.mp hx

theorem colon_not_word : isWordChar ':' = false := by decide

theorem matchEntry_some_iff (entry t v : List Char) :
    matchEntry entry = some (t, v) ↔ EntryMatch entry t v := by
  constructor
  · intro h
    unfold matchEntry at h
    by_cases hg : entry.takeWhile isWordChar = []
    · simp [hg] at h
    · rw [if_neg hg, drop_length_takeWhile] at h
      split at h
      · rename_i rest heq
        simp only [Option.some.injEq, Prod.mk.injEq] at h
        obtain ⟨ht, hv⟩ := h
        have hsplit : entry = entry.takeWhile isWordChar ++ entry.dropWhile isWordChar :=
          (List.takeWhile_append_dropWhile _ _).symm
        rw [ht, heq] at hsplit
        have hrest : rest = rest.takeWhile (fun c => ¬ (c = '\n'))
            ++ rest.dropWhile (fun c => ¬ (c = '\n')) :=
          (List.takeWhile_append_dropWhile _ _).symm
        rw [hv] at hrest
        refine ⟨ht ▸ hg, ?_, ?_, ?_⟩
        · intro x hx
          rw [← ht] at hx
          exact List.mem_takeWhile_imp hx
        · intro x hx
          rw [← hv] at hx
          simpa using List.mem_takeWhile_imp hx
        · rcases he : rest.dropWhile (fun c => ¬ (c = '\n')) with _ | ⟨c2, cs2⟩
          · left
            rw [he, List.append_nil] at hrest
            rw [hsplit, ← hrest]
          · right
            have hc2 : c2 = '\n' := by
              simpa using head_dropWhile_false _ rest c2 cs2 he
            refine ⟨cs2, ?_⟩
            rw [he, hc2] at hrest
            rw [hsplit, hrest]
      · exact absurd h (by simp)
  · rintro ⟨ht, hword, hnl, hdec⟩
    have hentry : ∃ tail2, entry = t ++ ':' :: (v ++ tail2) ∧
        (tail2 = [] ∨ ∃ tl, tail2 = '\n' :: tl) := by
      rcases hdec with h | ⟨tl, h⟩
      · exact ⟨[], by simp [h], Or.inl rfl⟩
      · exact ⟨'\n' :: tl, by simp [h], Or.inr ⟨tl, rfl⟩⟩
    obtain ⟨tail2, hE, htail⟩ := hentry
    have htake : entry.takeWhile isWordChar = t := by
      rw [hE, takeWhile_append_all _ t _ hword,
        List.takeWhile_cons_of_neg (by decide), List.append_nil]
    have hdrop : entry.drop t.length = ':' :: (v ++ tail2) := by
      rw [hE]
      exact List.drop_left t _
    unfold matchEntry
    rw [htake, if_neg ht, hdrop]
    simp only [Option.some.injEq, Prod.mk.injEq, true_and]
    rw [takeWhile_append_all _ v tail2 (fun c hc => by simpa using hnl c hc)]
    rcases htail with h0 | ⟨tl, h0⟩
    · rw [h0]
      simp
    · rw [h0, List.takeWhile_cons_of_neg (by simp), List.append_nil]

theorem digit_not_dash {c : Char} (h : c.isDigit) : ¬ (c = '-') := by
  intro he
  subst he
  exact absurd h (by decide)

theorem digit_not_plus {c : Char} (h : c.isDigit) : ¬ (c = '+') := by
  intro he
  subst he
  exact absurd h (by decide)

theorem digit_not_ws {c : Char} (h : c.isDigit) : c.isWhitespace = false := by
  cases hws : c.isWhitespace
  · rfl
  · have : ((c = ' ' ∨ c = '\t') ∨ c = '\r') ∨ c = '\n' := by
      simpa [Char.isWhitespace] using hws
    rcases this with ((h1 | h1) | h1) | h1 <;> subst h1 <;> exact absurd h (by decide)

theorem countDashes_digits (l : List Char) (h : ∀ c ∈ l, c.isDigit) :
    countDashes l = 0 := by
  unfold countDashes
  rw [List.count_eq_zero]
  intro hm
  exact digit_not_dash (h _ hm) rfl

theorem countDashes_append (x y : List Char) :
    countDashes (x ++ y) = countDashes x + countDashes y :=
  List.count_append _ _ _

theorem countDashes_dash_cons (l : List Char) :
    countDashes ('-' :: l) = countDashes l + 1 := by
  unfold countDashes
  simp [List.count_cons]

theorem dropWhile_all_false (p : Char → Bool) (l : List Char)
    (h : ∀ c ∈ l, p c = false) : l.dropWhile p = l := by
  cases l with
  | nil => rfl
  | cons c cs =>
    rw [List.dropWhile_cons_of_neg]
    simp [h c (by simp)]

theorem pyStrip_no_ws (l : List Char) (h : ∀ c ∈ l, c.isWhitespace = false) :
    pyStrip l = l := by
  unfold pyStrip
  rw [dropWhile_all_false _ _ h,
    dropWhile_all_false _ _ (fun c hc => h c (List.mem_reverse.mp hc)),
    List.reverse_reverse]

theorem pyInt_digits (l : List Char) (hne : l ≠ []) (h : ∀ c ∈ l, c.isDigit) :
    pyInt l = some (digitsVal l) := by
  unfold pyInt
  rw [pyStrip_no_ws l (fun c hc => digit_not_ws (h c hc))]
  cases l with
  | nil => exact absurd rfl hne
  | cons c cs =>
    simp only [pyIntCore]
    rw [if_neg (digit_not_dash (h c (by simp))), if_neg (digit_not_plus (h c (by simp))),
      if_pos (List.all_eq_true.mpr (fun x hx => h x hx))]

theorem splitFirstChar_none (c : Char) (l : List Char) (h : c ∉ l) :
    splitFirstChar c l = none := by
  induction l with
  | nil => rfl
  | cons x xs ih =>
    unfold splitFirstChar
    rw [if_neg (by rintro rfl; exact h (by simp)),
      ih (fun hm => h (by simp [hm]))]
    rfl

theorem splitFirstChar_first (c : Char) (a b : List Char) (h : c ∉ a) :
    splitFirstChar c (a ++ c :: b) = some (a, b) := by
  induction a with
  | nil => simp [splitFirstChar]
  | cons x xs ih =>
    rw [List.cons_append]
    simp only [splitFirstChar]
    rw [if_neg (by rintro rfl; exact h (by simp)), ih (fun hm => h (by simp [hm]))]
    rfl

theorem pySplit2Char_pair (x y : List Char) (hx : '-' ∉ x) (hy : '-' ∉ y) :
    pySplit2Char '-' (x ++ '-' :: y) = [x, y] := by
  simp only [pySplit2Char, splitFirstChar_first _ _ _ hx, splitFirstChar_none _ _ hy]

theorem not_dash_mem_digits (l : List Char) (h : ∀ c ∈ l, c.isDigit) : '-' ∉ l :=
  fun hm => digit_not_dash (h _ hm) rfl

theorem shapeCheck_cons (p : Char → Bool) (ps : List (Char → Bool)) (c : Char)
    (cs : List Char) : shapeCheck (p :: ps) (c :: cs) = (p c && shapeCheck ps cs) := rfl

theorem shapeCheck_digits_append (d : List Char) (ps : List (Char → Bool))
    (s : List Char) (h : ∀ c ∈ d, c.isDigit) :
    shapeCheck (List.replicate d.length Char.isDigit ++ ps) (d ++ s) = shapeCheck ps s := by
  induction d with
  | nil => rfl
  | cons c cs ih =>
    simp only [List.length_cons, List.replicate_succ, List.cons_append]
    rw [shapeCheck_cons, h c (by simp), Bool.true_and]
    exact ih (fun x hx => h x (by simp [hx]))

theorem shapeCheck_dash_cons (ps : List (Char → Bool)) (s : List Char) :
    shapeCheck (isDashChar :: ps) ('-' :: s) = shapeCheck ps s := by
  rw [shapeCheck_cons, show isDashChar '-' = true from rfl, Bool.true_and]

theorem shapeCheck_digits_exact (d : List Char) (n : Nat) (hlen : d.length = n)
    (h : ∀ c ∈ d, c.isDigit) :
    shapeCheck (List.replicate n Char.isDigit) d = true := by
  subst hlen
  have := shapeCheck_digits_append d [] [] h
  simpa using this

theorem removeDashes_digits (l : List Char) (h : ∀ c ∈ l, c.isDigit) :
    removeDashes l = l :=
  List.filter_eq_self.mpr (fun c hc => by simp [digit_not_dash (h c hc)])

theorem removeDashes_append (x y : List Char) :
    removeDashes (x ++ y) = removeDashes x ++ removeDashes y :=
  List.filter_append _ _

theorem removeDashes_dash_cons (l : List Char) :
    removeDashes ('-' :: l) = removeDashes l := by
  simp [removeDashes]

theorem shapeCheck_d8d8 (x y : List Char) (hx : x.length = 8) (hy : y.length = 8)
    (hdx : ∀ c ∈ x, c.isDigit) (hdy : ∀ c ∈ y, c.isDigit) :
    shapeCheck shapeD8D8 (x ++ '-' :: y) = true := by
  have e1 : shapeD8D8
      = List.replicate x.length Char.isDigit ++ ([isDashChar] ++ List.replicate 8 Char.isDigit) := by
    rw [hx]
    rfl
  rw [e1, shapeCheck_digits_append x _ _ hdx, List.singleton_append, shapeCheck_dash_cons]
  exact shapeCheck_digits_exact y 8 hy hdy

theorem shapeCheck_iso (a b c : List Char) (ha : a.length = 4) (hb : b.length = 2)
    (hc2 : c.length = 2) (hda : ∀ x ∈ a, x.isDigit) (hdb : ∀ x ∈ b, x.isDigit)
    (hdc : ∀ x ∈ c, x.isDigit) :
    shapeCheck shapeIso (a ++ '-' :: (b ++ '-' :: c)) = true := by
  have e1 : shapeIso
      = List.replicate a.length Char.isDigit
        ++ ([isDashChar] ++ (List.replicate 2 Char.isDigit
          ++ ([isDashChar] ++ List.replicate 2 Char.isDigit))) := by
    rw [ha]
    rfl
  rw [e1, shapeCheck_digits_append a _ _ hda, List.singleton_append, shapeCheck_dash_cons,
    show (2 : Nat) = b.length from hb.symm,
    shapeCheck_digits_append b _ _ hdb, List.singleton_append, shapeCheck_dash_cons]
  exact shapeCheck_digits_exact c b.length (by rw [hb, hc2]) hdc

/-- C3: the day-token parser recognizes exactly the dash counts 0 (compact
scalar), 2 (ISO scalar), 1 (compact range) and 6 (ISO range); every other
dash count fails with the day format error; and the compact and
ISO-hyphenated spellings of one calendar day parse to the identical integer
(the hyphens are stripped before conversion). -/
theorem day_token_contract :
    (∀ s : List Char,
        countDashes s ≠ 0 → countDashes s ≠ 1 → countDashes s ≠ 2 → countDashes s ≠ 6 →
        parse_day_value s = .error (.validationFailed (dayFormatMsg s)))
  ∧ (∀ a b c : List Char, a.length = 4 → b.length = 2 → c.length = 2 →
        (∀ x ∈ a ++ (b ++ c), x.isDigit) →
        parse_day_value (a ++ (b ++ c)) = .ok (.inl (digitsVal (a ++ (b ++ c))))
      ∧ parse_day_value (a ++ '-' :: (b ++ '-' :: c)) = parse_day_value (a ++ (b ++ c)))
  ∧ (∀ x y : List Char, x.length = 8 → y.length = 8 →
        (∀ ch ∈ x ++ y, ch.isDigit) →
        parse_day_value (x ++ '-' :: y) = _verify_range (digitsVal x) (digitsVal y))
  ∧ parse_day_value ("2020-04-19--2020-04-21".data) = .ok (.inr (20200419, 20200421)) := by
  refine ⟨?_, ?_, ?_, ?_⟩
  · intro s h0 h1 h2 h6
    unfold parse_day_value
    rw [if_neg h0, if_neg h2, if_neg h1, if_neg h6]
  · intro a b c ha hb hc2 hdig
    have hda : ∀ x ∈ a, x.isDigit := fun x hx => hdig x (by simp [hx])
    have hdb : ∀ x ∈ b, x.isDigit := fun x hx => hdig x (by simp [hx])
    have hdc : ∀ x ∈ c, x.isDigit := fun x hx => hdig x (by simp [hx])
    have hlen : (a ++ (b ++ c)).length = 8 := by simp [ha, hb, hc2]
    have hcompact : parse_day_value (a ++ (b ++ c))
        = .ok (.inl (digitsVal (a ++ (b ++ c)))) := by
      unfold parse_day_value
      rw [if_pos (countDashes_digits _ hdig),
        if_pos (show shapeCheck shapeD8 (a ++ (b ++ c)) = true by
          rw [shapeD8]; exact shapeCheck_digits_exact _ 8 hlen hdig)]
      rw [pyInt_digits _ (by intro hh; rw [hh] at hlen; simp at hlen) hdig]
    refine ⟨hcompact, ?_⟩
    have hcd : countDashes (a ++ '-' :: (b ++ '-' :: c)) = 2 := by
      rw [countDashes_append, countDashes_dash_cons, countDashes_append,
        countDashes_dash_cons, countDashes_digits a hda, countDashes_digits b hdb,
        countDashes_digits c hdc]
    have hrd : removeDashes (a ++ '-' :: (b ++ '-' :: c)) = a ++ (b ++ c) := by
      rw [removeDashes_append, removeDashes_dash_cons, removeDashes_append,
        removeDashes_dash_cons, removeDashes_digits a hda, removeDashes_digits b hdb,
        removeDashes_digits c hdc]
    rw [hcompact]
    unfold parse_day_value
    rw [if_neg (by simp [hcd]), if_pos hcd,
      if_pos (shapeCheck_iso a b c ha hb hc2 hda hdb hdc), hrd]
    rw [pyInt_digits _ (by intro hh; rw [hh] at hlen; simp at hlen) hdig]
  · intro x y hx hy hdig
    have hdx : ∀ c ∈ x, c.isDigit := fun c hc => hdig c (by simp [hc])
    have hdy : ∀ c ∈ y, c.isDigit := fun c hc => hdig c (by simp [hc])
    have hcd : countDashes (x ++ '-' :: y) = 1 := by
      rw [countDashes_append, countDashes_dash_cons, countDashes_digits x hdx,
        countDashes_digits y hdy]
    unfold parse_day_value
    rw [if_neg (by simp [hcd]), if_neg (by simp [hcd]), if_pos hcd,
      if_pos (shapeCheck_d8d8 x y hx hy hdx hdy),
      pySplit2Char_pair x y (not_dash_mem_digits x hdx) (not_dash_mem_digits y hdy)]
    simp only []
    rw [pyInt_digits x (by intro hh; rw [hh] at hx; simp at hx) hdx,
      pyInt_digits y (by intro hh; rw [hh] at hy; simp at hy) hdy]
  · decide

/-- C3 witness: the general parts of `day_token_contract` instantiated at a
3-dash token, at the two spellings of 2020-04-19, and at an inverted compact
range. -/
theorem day_token_contract_witness :
    parse_day_value ("a-b-c-d".data)
      = .error (.validationFailed (dayFormatMsg ("a-b-c-d".data)))
  ∧ parse_day_value ("2020".data ++ '-' :: ("04".data ++ '-' :: "19".data))
      = parse_day_value ("2020".data ++ ("04".data ++ "19".data))
  ∧ parse_day_value ("20200420".data ++ '-' :: "20200419".data)
      = _verify_range (digitsVal ("20200420".data)) (digitsVal ("20200419".data)) :=
  ⟨day_token_contract.1 _ (by decide) (by decide) (by decide) (by decide),
   (day_token_contract.2.1 "2020".data "04".data "19".data
     (by decide) (by decide) (by decide) (by decide)).2,
   day_token_contract.2.2.1 "20200420".data "20200419".data
     (by decide) (by decide) (by decide)⟩

/-- C2: the Range Normalizer returns the scalar `start` when the bounds are
equal, the pair unchanged when the end exceeds the start, and fails with the
inverted-range error naming both bounds when the end precedes the start. -/
theorem verify_range_contract (start stop : Int) :
    _verify_range start stop =
      if start = stop then .ok (.inl start)
      else if start < stop then .ok (.inr (start, stop))
      else .error (.validationFailed
        ("the given range " ++ toString start ++ "-" ++ toString stop ++ " is inverted")) := by
  unfold _verify_range
  by_cases h1 : start = stop
  · rw [if_pos h1]
  · rw [if_neg h1]

/-- C9: `count` is positive infinity for a wildcard filter, the element
count for an explicit geography or source-signal filter, and for an explicit
time filter the sum over entries of 1 per scalar and the inclusive day/week
span per range; one scalar counts 1 and one two-day range counts 2. -/
theorem count_contract :
    (∀ gt : String, (GeoFilter.mk gt (.inl true)).count = ⊤)
  ∧ (∀ src : String, (SourceSignalFilter.mk src (.inl true)).count = ⊤)
  ∧ (∀ tt : String, (TimeFilter.mk tt (.inl true)).count = ⊤)
  ∧ (∀ (gt : String) (vs : List String),
      (GeoFilter.mk gt (.inr vs)).count = ((vs.length : Int) : WithTop Int))
  ∧ (∀ (src : String) (sigs : List String),
      (SourceSignalFilter.mk src (.inr sigs)).count = ((sigs.length : Int) : WithTop Int))
  ∧ (∀ (tt : String) (vs : List TimeValue),
      (TimeFilter.mk tt (.inr vs)).count
        = (((vs.map (fun v =>
            match v with
            | .inl _ => (1 : Int)
            | .inr p => if tt = "week" then weeks_in_range p else days_in_range p)).sum :
              Int) : WithTop Int))
  ∧ (∀ (tt : String) (n : Int), (TimeFilter.mk tt (.inr [.inl n])).count = 1)
  ∧ (TimeFilter.mk "day" (.inr [.inr (20200419, 20200420)])).count = 2 := by
  refine ⟨fun _ => rfl, fun _ => rfl, fun _ => rfl, fun _ _ => rfl, fun _ _ => rfl,
    fun _ _ => rfl, fun _ _ => ?_, ?_⟩
  · show (((1 : Int) + 0 : Int) : WithTop Int) = 1
    norm_num
  · decide

/-- C10: with `re.MULTILINE` anchoring, the single-directive parser accepts
a value containing a newline after a syntactically valid pair, returning the
pair and silently discarding the trailing line, and the multi-directive
tokenizer likewise accepts an entry with a trailing line. -/
theorem multiline_dollar_behavior :
    _parse_single_arg "geo" ⟨[("geo", "state:ca\nanything")]⟩ = .ok ("state", "ca")
  ∧ _parse_common_multi_arg "k" ("a:b\nc".data) = .ok [("a", .inr ["b"])] := by
  exact ⟨by decide, by decide⟩

/-- C5: the multi-directive tokenizer returns the empty sequence on empty
raw input; an entry matches `^([\w\-_]+):(.*)$` exactly when it decomposes
per `EntryMatch`; a matching entry yields the trimmed, lower-cased pair with
a lone `*` as wildcard and a comma-split value list otherwise; a
non-matching entry fails with the format error naming the entry and the
`<key>:<value>` shape; and a non-empty line is processed entry by entry in
order with the first failure raised. -/
theorem multi_arg_tokenizer_contract :
    (∀ key : String, _parse_common_multi_arg key [] = .ok [])
  ∧ (∀ entry t v : List Char, matchEntry entry = some (t, v) ↔ EntryMatch entry t v)
  ∧ (∀ (key : String) (entry t v : List Char), EntryMatch entry t v →
        processEntry key entry = .ok (pairSpec t v))
  ∧ (∀ (key : String) (entry : List Char), matchEntry entry = none →
        processEntry key entry = .error (.validationFailed (multiArgMsg key entry)))
  ∧ (∀ (key : String) (line : List Char), line ≠ [] →
        _parse_common_multi_arg key line = listMapE (processEntry key) (splitOnChar ';' line)) := by
  refine ⟨fun _ => rfl, matchEntry_some_iff, ?_, ?_, ?_⟩
  · intro key entry t v h
    have hm : matchEntry entry = some (t, v) := (matchEntry_some_iff entry t v).mpr h
    unfold processEntry pairSpec
    rw [hm]
    dsimp only
    by_cases hstar : pyLower (pyStrip v) = ['*']
    · rw [if_pos hstar, if_pos hstar]
    · rw [if_neg hstar, if_neg hstar]
  · intro key entry h
    unfold processEntry
    rw [h]
  · intro key line h
    unfold _parse_common_multi_arg
    rw [if_neg h]

/-- C5 witness: the tokenizer contract instantiated at the empty line, a
matching entry with mixed case and spacing, and a colon-free entry. -/
theorem multi_arg_tokenizer_contract_witness :
    _parse_common_multi_arg "geo" [] = .ok []
  ∧ processEntry "geo" ("State: CA ,tx".data) = .ok (pairSpec ("State".data) (" CA ,tx".data))
  ∧ processEntry "geo" ("nocolon".data)
      = .error (.validationFailed (multiArgMsg "geo" ("nocolon".data))) :=
  ⟨multi_arg_tokenizer_contract.1 "geo",
   multi_arg_tokenizer_contract.2.2.1 "geo" _ _ _
     ⟨by decide, by decide, by decide, Or.inl (by decide)⟩,
   multi_arg_tokenizer_contract.2.2.2.1 "geo" _ (by decide)⟩

/-! ## The list-to-ranges collapse: idempotence -/

/-- Consecutive intervals of the list are neither overlapping nor adjacent
under `succ`. -/
def SeparatedChain (succ : Int → Int) (l : List (Int × Int)) : Prop :=
  l.Chain' (fun a b => ¬ (b.1 ≤ succ a.2))

theorem mergeIntervalsAux_head_start (succ : Int → Int) (l : List (Int × Int)) :
    ∀ cur : Int × Int, ∃ e rest, mergeIntervalsAux succ cur l = (cur.1, e) :: rest := by
  induction l with
  | nil => exact fun cur => ⟨cur.2, [], by simp [mergeIntervalsAux]⟩
  | cons b rest ih =>
    intro cur
    by_cases h : b.1 ≤ succ cur.2
    · have h2 := ih (cur.1, max cur.2 b.2)
      simpa [mergeIntervalsAux, h] using h2
    · exact ⟨cur.2, mergeIntervalsAux succ b rest, by simp [mergeIntervalsAux, h]⟩

theorem mergeIntervalsAux_separated (succ : Int → Int) (l : List (Int × Int)) :
    ∀ cur : Int × Int, SeparatedChain succ (mergeIntervalsAux succ cur l) := by
  induction l with
  | nil =>
    intro cur
    simp [mergeIntervalsAux, SeparatedChain]
  | cons b rest ih =>
    intro cur
    by_cases h : b.1 ≤ succ cur.2
    · simpa [mergeIntervalsAux, h] using ih (cur.1, max cur.2 b.2)
    · unfold mergeIntervalsAux
      rw [if_neg h]
      obtain ⟨e, tail2, heq⟩ := mergeIntervalsAux_head_start succ rest b
      have h2 := ih b
      rw [heq] at h2 ⊢
      exact List.chain'_cons.mpr ⟨h, h2⟩

theorem mergeIntervals_separated (succ : Int → Int) (l : List (Int × Int)) :
    SeparatedChain succ (mergeIntervals succ l) := by
  cases l with
  | nil => simp [mergeIntervals, SeparatedChain]
  | cons a rest => exact mergeIntervalsAux_separated succ rest a

theorem mergeIntervalsAux_eq_self (succ : Int → Int) (l : List (Int × Int)) :
    ∀ cur : Int × Int, SeparatedChain succ (cur :: l) →
      mergeIntervalsAux succ cur l = cur :: l := by
  induction l with
  | nil =>
    intro cur _
    simp [mergeIntervalsAux]
  | cons b rest ih =>
    intro cur h
    have h2 := List.chain'_cons.mp h
    unfold mergeIntervalsAux
    rw [if_neg h2.1, ih b h2.2]

theorem mergeIntervals_eq_self (succ : Int → Int) (l : List (Int × Int))
    (h : SeparatedChain succ l) : mergeIntervals succ l = l := by
  cases l with
  | nil => simp [mergeIntervals]
  | cons a rest => exact mergeIntervalsAux_eq_self succ rest a h

theorem mergeIntervalsAux_mem_start (succ : Int → Int) (l : List (Int × Int)) :
    ∀ cur : Int × Int, ∀ y ∈ mergeIntervalsAux succ cur l,
      y.1 = cur.1 ∨ ∃ z ∈ l, z.1 = y.1 := by
  induction l with
  | nil =>
    intro cur y hy
    simp [mergeIntervalsAux] at hy
    simp [hy]
  | cons b rest ih =>
    intro cur y hy
    by_cases h : b.1 ≤ succ cur.2
    · rw [show mergeIntervalsAux succ cur (b :: rest)
          = mergeIntervalsAux succ (cur.1, max cur.2 b.2) rest by
        simp [mergeIntervalsAux, h]] at hy
      rcases ih (cur.1, max cur.2 b.2) y hy with he | ⟨z, hz, he⟩
      · exact Or.inl he
      · exact Or.inr ⟨z, by simp [hz], he⟩
    · rw [show mergeIntervalsAux succ cur (b :: rest)
          = cur :: mergeIntervalsAux succ b rest by simp [mergeIntervalsAux, h]] at hy
      rcases List.mem_cons.mp hy with rfl | hy2
      · exact Or.inl rfl
      · rcases ih b y hy2 with he | ⟨z, hz, he⟩
        · exact Or.inr ⟨b, by simp, he.symm⟩
        · exact Or.inr ⟨z, by simp [hz], he⟩

theorem mergeIntervalsAux_sorted (succ : Int → Int) (l : List (Int × Int)) :
    ∀ cur : Int × Int, (cur :: l).Sorted leStart →
      (mergeIntervalsAux succ cur l).Sorted leStart := by
  induction l with
  | nil =>
    intro cur _
    simp [mergeIntervalsAux]
  | cons b rest ih =>
    intro cur h
    rw [List.sorted_cons] at h
    by_cases hc : b.1 ≤ succ cur.2
    · rw [show mergeIntervalsAux succ cur (b :: rest)
          = mergeIntervalsAux succ (cur.1, max cur.2 b.2) rest by
        simp [mergeIntervalsAux, hc]]
      refine ih (cur.1, max cur.2 b.2) ?_
      rw [List.sorted_cons]
      exact ⟨fun x hx => h.1 x (by simp [hx]), (List.sorted_cons.mp h.2).2⟩
    · rw [show mergeIntervalsAux succ cur (b :: rest)
          = cur :: mergeIntervalsAux succ b rest by simp [mergeIntervalsAux, hc]]
      rw [List.sorted_cons]
      refine ⟨?_, ih b h.2⟩
      intro y hy
      rcases mergeIntervalsAux_mem_start succ rest b y hy with he | ⟨z, hz, he⟩
      · have := h.1 b (by simp)
        unfold leStart at this ⊢
        omega
      · have := h.1 z (by simp [hz])
        unfold leStart at this ⊢
        omega

theorem mergeIntervals_sorted (succ : Int → Int) (l : List (Int × Int))
    (h : l.Sorted leStart) : (mergeIntervals succ l).Sorted leStart := by
  cases l with
  | nil => simp [mergeIntervals]
  | cons a rest => exact mergeIntervalsAux_sorted succ rest a h

theorem mergeIntervalsAux_proper (succ : Int → Int) (l : List (Int × Int)) :
    ∀ cur : Int × Int, cur.1 ≤ cur.2 → (∀ p ∈ l, p.1 ≤ p.2) →
      ∀ p ∈ mergeIntervalsAux succ cur l, p.1 ≤ p.2 := by
  induction l with
  | nil =>
    intro cur hcur _ p hp
    simp [mergeIntervalsAux] at hp
    rw [hp]
    exact hcur
  | cons b rest ih =>
    intro cur hcur h p hp
    by_cases hc : b.1 ≤ succ cur.2
    · rw [show mergeIntervalsAux succ cur (b :: rest)
          = mergeIntervalsAux succ (cur.1, max cur.2 b.2) rest by
        simp [mergeIntervalsAux, hc]] at hp
      exact ih (cur.1, max cur.2 b.2) (le_trans hcur (le_max_left _ _))
        (fun q hq => h q (by simp [hq])) p hp
    · rw [show mergeIntervalsAux succ cur (b :: rest)
          = cur :: mergeIntervalsAux succ b rest by simp [mergeIntervalsAux, hc]] at hp
      rcases List.mem_cons.mp hp with rfl | hp2
      · exact hcur
      · exact ih b (h b (by simp)) (fun q hq => h q (by simp [hq])) p hp2

theorem mergeIntervals_proper (succ : Int → Int) (l : List (Int × Int))
    (h : ∀ p ∈ l, p.1 ≤ p.2) : ∀ p ∈ mergeIntervals succ l, p.1 ≤ p.2 := by
  cases l with
  | nil => simp [mergeIntervals]
  | cons a rest =>
    exact mergeIntervalsAux_proper succ rest a (h a (by simp))
      (fun q hq => h q (by simp [hq]))

theorem tv_roundtrip (p : Int × Int) : tvToInterval (intervalToTv p) = p := by
  unfold intervalToTv
  by_cases h : p.1 = p.2
  · rw [if_pos h]
    unfold tvToInterval
    exact Prod.ext rfl h
  · rw [if_neg h]
    rfl

theorem map_interval_roundtrip (L : List (Int × Int)) :
    (L.map intervalToTv).map tvToInterval = L := by
  rw [List.map_map]
  induction L with
  | nil => rfl
  | cons p ps ih => simp [tv_roundtrip, ih]

theorem collapseValues_idem (succ : Int → Int) (vs : List TimeValue) :
    collapseValues succ (collapseValues succ vs) = collapseValues succ vs := by
  unfold collapseValues
  rw [map_interval_roundtrip]
  rw [List.Sorted.insertionSort_eq
    (mergeIntervals_sorted succ _ (List.sorted_insertionSort leStart _))]
  rw [mergeIntervals_eq_self succ _ (mergeIntervals_separated succ _)]

/-- C8: the list-to-ranges collapse `to_ranges` is idempotent — applying it
twice to any `TimeFilter` yields the same result as applying it once. -/
theorem to_ranges_idempotent (f : TimeFilter) : f.to_ranges.to_ranges = f.to_ranges := by
  obtain ⟨tt, tv⟩ := f
  cases tv with
  | inl b => rfl
  | inr vs =>
    by_cases h : tt = "week"
    · simp only [TimeFilter.to_ranges, if_pos h, weeks_to_ranges]
      rw [collapseValues_idem]
    · simp only [TimeFilter.to_ranges, if_neg h, days_to_ranges]
      rw [collapseValues_idem]

/-! ## Time-filter merging -/

/-- A filter whose `time_values` is the boolean `True` (the wildcard). -/
def isWildcardFilter (tf : TimeFilter) : Bool :=
  tf.time_values = .inl true

/-- The explicit value list of a filter (empty for a boolean). -/
def explicitValues (tf : TimeFilter) : List TimeValue :=
  match tf.time_values with
  | .inr vs => vs
  | _ => []

theorem dedup_const {α : Type} [DecidableEq α] (l : List α) (t : α)
    (hne : l ≠ []) (h : ∀ x ∈ l, x = t) : l.dedup = [t] := by
  induction l with
  | nil => exact absurd rfl hne
  | cons a rest ih =>
    cases rest with
    | nil =>
      rw [h a (by simp)]
      simp
    | cons b rest2 =>
      have hrest := ih (by simp) (fun x hx => h x (by simp [hx]))
      rw [List.dedup_cons_of_mem, hrest]
      rw [h a (by simp), h b (by simp)]
      simp

theorem collectMerged_wildcard (tfs : List TimeFilter)
    (hok : ∀ f ∈ tfs, f.time_values ≠ .inl false) (w : TimeFilter)
    (hf : tfs.find? isWildcardFilter = some w) :
    collectMerged tfs = .ok (.inl w) := by
  induction tfs with
  | nil => simp at hf
  | cons tf rest ih =>
    by_cases hw : isWildcardFilter tf
    · rw [List.find?_cons_of_pos _ hw] at hf
      have htv : tf.time_values = .inl true := by
        have := hw
        unfold isWildcardFilter at this
        simpa using this
      unfold collectMerged
      rw [htv]
      cases hf
      rfl
    · rw [List.find?_cons_of_neg _ hw] at hf
      have hne : tf.time_values ≠ .inl true := by
        intro hc
        exact hw (by unfold isWildcardFilter; simp [hc])
      rcases htv : tf.time_values with b | vs
      · cases b with
        | true => exact absurd htv hne
        | false => exact absurd htv (hok tf (by simp))
      · unfold collectMerged
        rw [htv, ih (fun f hfm => hok f (by simp [hfm])) hf]

theorem collectMerged_explicit (tfs : List TimeFilter)
    (hok : ∀ f ∈ tfs, f.time_values ≠ .inl false)
    (hf : tfs.find? isWildcardFilter = none) :
    collectMerged tfs = .ok (.inr (tfs.flatMap explicitValues)) := by
  induction tfs with
  | nil => rfl
  | cons tf rest ih =>
    have hall := List.find?_eq_none.mp hf
    rcases htv : tf.time_values with b | vs
    · cases b with
      | true =>
        exact absurd (by unfold isWildcardFilter; simp [htv]) (hall tf (by simp))
      | false => exact absurd htv (hok tf (by simp))
    · unfold collectMerged
      rw [htv, ih (fun f hfm => hok f (by simp [hfm]))
        (List.find?_eq_none.mpr (fun x hx => hall x (by simp [hx])))]
      rw [List.flatMap_cons]
      have : explicitValues tf = vs := by
        unfold explicitValues
        rw [htv]
      rw [this]

/-- C1: merging zero time filters yields `none`; one filter is returned
unchanged; two or more filters of one shared granularity yield the first
wildcard filter when any is wildcard, and otherwise one filter whose value
list is the in-order concatenation of all explicit value lists, collapsed by
`to_ranges`. -/
theorem time_merge_contract (key : String) (tfs : List TimeFilter)
    (hsame : ∀ f ∈ tfs, ∀ g ∈ tfs, f.time_type = g.time_type)
    (hbool : ∀ f ∈ tfs, f.time_values ≠ .inl false) :
    (tfs = [] → mergeTimeFilters key tfs = .ok none)
  ∧ (∀ tf, tfs = [tf] → mergeTimeFilters key tfs = .ok (some tf))
  ∧ (∀ t0 t1 rest, tfs = t0 :: t1 :: rest →
       (∀ w, tfs.find? isWildcardFilter = some w →
          mergeTimeFilters key tfs = .ok (some w))
     ∧ (tfs.find? isWildcardFilter = none →
          mergeTimeFilters key tfs =
            .ok (some (TimeFilter.mk t0.time_type
              (.inr (tfs.flatMap explicitValues))).to_ranges))) := by
  refine ⟨?_, ?_, ?_⟩
  · rintro rfl
    rfl
  · rintro tf rfl
    rfl
  · rintro t0 t1 rest rfl
    have hdedup : ((t0 :: t1 :: rest).map TimeFilter.time_type).dedup = [t0.time_type] := by
      refine dedup_const _ _ (by simp) ?_
      intro x hx
      obtain ⟨f, hfm, hfe⟩ := List.mem_map.mp hx
      rw [← hfe]
      exact hsame f hfm t0 (by simp)
    have hcond : ¬ 2 ≤ (((t0 :: t1 :: rest).map TimeFilter.time_type).dedup).length := by
      rw [hdedup]
      simp
    constructor
    · intro w hw
      unfold mergeTimeFilters
      dsimp only
      rw [if_neg hcond, collectMerged_wildcard _ hbool w hw]
    · intro hf
      unfold mergeTimeFilters
      dsimp only
      rw [if_neg hcond, collectMerged_explicit _ hbool hf]

/-- C1 witness: merging two explicit day filters concatenates their value
lists and collapses adjacent days into one range. -/
theorem time_merge_contract_witness :
    mergeTimeFilters "time"
      [TimeFilter.mk "day" (.inr [.inl 20200101]), TimeFilter.mk "day" (.inr [.inl 20200102])]
      = .ok (some (TimeFilter.mk "day" (.inr [.inr (20200101, 20200102)]))) := by
  have h := (time_merge_contract "time"
      [TimeFilter.mk "day" (.inr [.inl 20200101]), TimeFilter.mk "day" (.inr [.inl 20200102])]
      (by decide) (by decide)).2.2 _ _ [] rfl
  exact (h.2 (by decide)).trans (by decide)

/-- C4: merging two or more time filters whose granularities are not all
equal fails with the granularity-conflict error naming the filters, and
never succeeds (mixed granularities are never silently resolved). -/
theorem granularity_conflict_contract (key : String) (tfs : List TimeFilter)
    (f g : TimeFilter) (hf : f ∈ tfs) (hg : g ∈ tfs)
    (hne : f.time_type ≠ g.time_type) :
    mergeTimeFilters key tfs = .error (.validationFailed (mixesMsg key tfs))
  ∧ ∀ res, mergeTimeFilters key tfs ≠ .ok res := by
  have hmain : mergeTimeFilters key tfs = .error (.validationFailed (mixesMsg key tfs)) := by
    match tfs, hf, hg with
    | [], hf, _ => exact absurd hf (by simp)
    | [x], hf, hg =>
      rw [List.mem_singleton.mp hf, List.mem_singleton.mp hg] at hne
      exact absurd rfl hne
    | t0 :: t1 :: rest, hf, hg =>
      have hfm : f.time_type ∈ ((t0 :: t1 :: rest).map TimeFilter.time_type).dedup :=
        List.mem_dedup.mpr (List.mem_map.mpr ⟨f, hf, rfl⟩)
      have hgm : g.time_type ∈ ((t0 :: t1 :: rest).map TimeFilter.time_type).dedup :=
        List.mem_dedup.mpr (List.mem_map.mpr ⟨g, hg, rfl⟩)
      have hcond : 2 ≤ (((t0 :: t1 :: rest).map TimeFilter.time_type).dedup).length := by
        rcases hd : ((t0 :: t1 :: rest).map TimeFilter.time_type).dedup with _ | ⟨x, _ | ⟨y, l⟩⟩
        · rw [hd] at hfm
          simp at hfm
        · rw [hd] at hfm hgm
          rw [List.mem_singleton.mp hfm, List.mem_singleton.mp hgm] at hne
          exact absurd rfl hne
        · simp
      unfold mergeTimeFilters
      dsimp only
      rw [if_pos hcond]
  exact ⟨hmain, fun res hres => by rw [hmain] at hres; exact absurd hres (by simp)⟩

/-- C4 witness: a day filter and a week filter together are rejected with
the conflict message. -/
theorem granularity_conflict_contract_witness :
    mergeTimeFilters "time"
        [TimeFilter.mk "day" (.inr [.inl 20200101]), TimeFilter.mk "week" (.inr [.inl 202001])]
      = .error (.validationFailed (mixesMsg "time"
          [TimeFilter.mk "day" (.inr [.inl 20200101]),
           TimeFilter.mk "week" (.inr [.inl 202001])])) :=
  (granularity_conflict_contract "time"
    [TimeFilter.mk "day" (.inr [.inl 20200101]), TimeFilter.mk "week" (.inr [.inl 202001])]
    (TimeFilter.mk "day" (.inr [.inl 20200101])) (TimeFilter.mk "week" (.inr [.inl 202001]))
    (by simp) (by simp) (by decide)).1

/-! ## The strict-bounds invariant -/

theorem verify_range_strict (x y : Int) (p : Int × Int)
    (h : _verify_range x y = .ok (.inr p)) : p.1 < p.2 := by
  unfold _verify_range at h
  by_cases h1 : x = y
  · rw [if_pos h1] at h
    simp at h
  · rw [if_neg h1] at h
    by_cases h2 : y > x
    · rw [if_pos h2] at h
      simp only [Except.ok.injEq, Sum.inr.injEq] at h
      rw [← h]
      exact h2
    · rw [if_neg h2] at h
      simp at h

theorem parse_day_value_strict (s : List Char) (p : Int × Int)
    (h : parse_day_value s = .ok (.inr p)) : p.1 < p.2 := by
  unfold parse_day_value at h
  repeat' split at h
  all_goals first
    | exact verify_range_strict _ _ _ h
    | simp_all

theorem parse_week_value_strict (s : List Char) (p : Int × Int)
    (h : parse_week_value s = .ok (.inr p)) : p.1 < p.2 := by
  unfold parse_week_value at h
  repeat' split at h
  all_goals first
    | exact verify_range_strict _ _ _ h
    | simp_all

theorem listMapE_mem {α β : Type} (f : α → Except PyErr β) (l : List α)
    (out : List β) (h : listMapE f l = .ok out) :
    ∀ b ∈ out, ∃ a ∈ l, f a = .ok b := by
  induction l generalizing out with
  | nil =>
    cases h
    simp
  | cons a rest ih =>
    unfold listMapE at h
    split at h
    · simp at h
    · rename_i b0 hfa
      split at h
      · simp at h
      · rename_i bs hrec
        cases h
        intro b hb
        rcases List.mem_cons.mp hb with rfl | hb2
        · exact ⟨a, by simp, hfa⟩
        · obtain ⟨a2, ha2, he⟩ := ih bs hrec b hb2
          exact ⟨a2, by simp [ha2], he⟩

theorem parse_time_filter_strict (tt : String) (tv : Sum Bool (List String))
    (f : TimeFilter) (h : _parse_time_filter tt tv = .ok f) : rangesStrict f := by
  unfold _parse_time_filter at h
  rcases tv with b | vs
  · dsimp only at h
    cases h
    simp [rangesStrict]
  · dsimp only at h
    split at h
    · split at h
      · simp at h
      · rename_i l hl
        cases h
        intro v hv a c hveq
        obtain ⟨t, _, hte⟩ := listMapE_mem _ _ _ hl v hv
        rw [hveq] at hte
        simpa using parse_week_value_strict _ _ hte
    · split at h
      · split at h
        · simp at h
        · rename_i l hl
          cases h
          intro v hv a c hveq
          obtain ⟨t, _, hte⟩ := listMapE_mem _ _ _ hl v hv
          rw [hveq] at hte
          simpa using parse_day_value_strict _ _ hte
      · simp at h

theorem collectMerged_inl_mem (tfs : List TimeFilter) (w : TimeFilter)
    (h : collectMerged tfs = .ok (.inl w)) : w ∈ tfs := by
  induction tfs with
  | nil => simp [collectMerged] at h
  | cons tf rest ih =>
    unfold collectMerged at h
    split at h
    · cases h
      simp
    · simp at h
    · split at h
      · simp at h
      · rename_i w2 hrec
        cases h
        exact List.mem_cons_of_mem _ (ih hrec)
      · simp at h

theorem collectMerged_inr_mem (tfs : List TimeFilter) (m : List TimeValue)
    (h : collectMerged tfs = .ok (.inr m)) :
    ∀ v ∈ m, ∃ tf ∈ tfs, ∃ vs, tf.time_values = .inr vs ∧ v ∈ vs := by
  induction tfs generalizing m with
  | nil =>
    cases h
    simp
  | cons tf rest ih =>
    unfold collectMerged at h
    split at h
    · simp at h
    · simp at h
    · rename_i vs htv
      split at h
      · simp at h
      · simp at h
      · rename_i acc hrec
        cases h
        intro v hv
        rcases List.mem_append.mp hv with hv1 | hv2
        · exact ⟨tf, by simp, vs, htv, hv1⟩
        · obtain ⟨tf2, htf2, vs2, he2, hv3⟩ := ih acc hrec v hv2
          exact ⟨tf2, by simp [htf2], vs2, he2, hv3⟩

theorem collapseValues_strict (succ : Int → Int) (vs : List TimeValue)
    (h : ∀ v ∈ vs, ∀ a b : Int, v = .inr (a, b) → a ≤ b) :
    ∀ v ∈ collapseValues succ vs, ∀ a b : Int, v = .inr (a, b) → a < b := by
  intro v hv a b hveq
  unfold collapseValues at hv
  obtain ⟨p, hp, hpe⟩ := List.mem_map.mp hv
  have hproper : ∀ q ∈ List.insertionSort leStart (vs.map tvToInterval), q.1 ≤ q.2 := by
    intro q hq
    have hq2 : q ∈ vs.map tvToInterval := (List.perm_insertionSort leStart _).mem_iff.mp hq
    obtain ⟨v2, hv2, hv2e⟩ := List.mem_map.mp hq2
    rcases v2 with x | pr
    · rw [← hv2e]
      simp [tvToInterval]
    · rw [← hv2e]
      exact h _ hv2 pr.1 pr.2 (by rw [Prod.mk.eta])
  have hple := mergeIntervals_proper succ _ hproper p hp
  rw [hveq] at hpe
  unfold intervalToTv at hpe
  by_cases hc : p.1 = p.2
  · rw [if_pos hc] at hpe
    simp at hpe
  · rw [if_neg hc] at hpe
    simp only [Sum.inr.injEq] at hpe
    rw [hpe] at hple hc
    exact lt_of_le_of_ne hple (by simpa using hc)

theorem to_ranges_strict (tt : String) (vs : List TimeValue)
    (h : ∀ v ∈ vs, ∀ a b : Int, v = .inr (a, b) → a ≤ b) :
    rangesStrict (TimeFilter.mk tt (.inr vs)).to_ranges := by
  unfold TimeFilter.to_ranges
  dsimp only
  by_cases hw : tt = "week"
  · rw [if_pos hw]
    exact collapseValues_strict nextWeek vs h
  · rw [if_neg hw]
    exact collapseValues_strict nextDay vs h

theorem mergeTimeFilters_strict (key : String) (tfs : List TimeFilter)
    (hstrict : ∀ tf ∈ tfs, rangesStrict tf) (f : TimeFilter)
    (h : mergeTimeFilters key tfs = .ok (some f)) : rangesStrict f := by
  cases tfs with
  | nil => simp [mergeTimeFilters] at h
  | cons tf rest0 =>
    cases rest0 with
    | nil =>
      rw [show mergeTimeFilters key [tf] = .ok (some tf) from rfl] at h
      cases h
      exact hstrict _ (by simp)
    | cons t1 rest =>
      unfold mergeTimeFilters at h
      dsimp only at h
      split at h
      · simp at h
      · split at h
        · simp at h
        · rename_i w hrec
          cases h
          exact hstrict _ (collectMerged_inl_mem _ _ hrec)
        · rename_i merged hrec
          cases h
          refine to_ranges_strict _ _ ?_
          intro v hv a b hveq
          obtain ⟨tf2, htf, vs, htve, hvin⟩ := collectMerged_inr_mem _ _ hrec v hv
          have hs := hstrict tf2 htf
          unfold rangesStrict at hs
          rw [htve] at hs
          exact le_of_lt (hs v hvin a b hveq)

theorem parse_time_arg_strict (key : String) (line : List Char) (f : TimeFilter)
    (h : parse_time_arg key line = .ok (some f)) : rangesStrict f := by
  unfold parse_time_arg at h
  split at h
  · simp at h
  · rename_i pairs hp
    split at h
    · simp at h
    · rename_i tfs htfs
      refine mergeTimeFilters_strict key tfs ?_ f h
      intro tf htf
      obtain ⟨pr, _, hpe⟩ := listMapE_mem _ _ _ htfs tf htf
      exact parse_time_filter_strict pr.1 pr.2 tf hpe

theorem parse_time_filters_strict (r : Request) (f : TimeFilter)
    (h : parse_time_filters r = .ok (some f)) : rangesStrict f := by
  unfold parse_time_filters at h
  split at h
  · split at h
    · simp at h
    · rename_i tt htt
      split at h
      · simp at h
      · split at h
        · simp at h
        · rename_i tvs hed
          cases h
          intro v hv a b hveq
          unfold extract_dates at hed
          split at hed
          · simp at hed
          · obtain ⟨t, _, hte⟩ := listMapE_mem _ _ _ hed v hv
            by_cases hlen : (t.takeWhile (fun c => ¬ (c = '-'))).length = 6
            · rw [if_pos hlen, hveq] at hte
              simpa using parse_week_value_strict _ _ hte
            · rw [if_neg hlen, hveq] at hte
              simpa using parse_day_value_strict _ _ hte
  · split at h
    · exact parse_time_arg_strict _ _ f h
    · simp at h

/-- C7: every constructed `TimeFilter` stores only ranges with strictly
ordered bounds — an inverted pair is rejected and equal bounds are rewritten
to a scalar before storage, on the directive path (`_parse_time_filter`),
the merged path (`parse_time_arg`) and the legacy `time_type`/`time_values`
path (`parse_time_filters`). -/
theorem constructed_ranges_strict :
    (∀ (tt : String) (tv : Sum Bool (List String)) (f : TimeFilter),
        _parse_time_filter tt tv = .ok f → rangesStrict f)
  ∧ (∀ (key : String) (line : List Char) (f : TimeFilter),
        parse_time_arg key line = .ok (some f) → rangesStrict f)
  ∧ (∀ (r : Request) (f : TimeFilter),
        parse_time_filters r = .ok (some f) → rangesStrict f) :=
  ⟨parse_time_filter_strict, parse_time_arg_strict, parse_time_filters_strict⟩

/-- C7 witness: parsing a day-range directive produces a filter whose only
range has strictly ordered bounds. -/
theorem constructed_ranges_strict_witness :
    rangesStrict (TimeFilter.mk "day" (.inr [.inr (20200419, 20200420)])) :=
  constructed_ranges_strict.1 "day" (.inr ["20200419-20200420"])
    (TimeFilter.mk "day" (.inr [.inr (20200419, 20200420)])) (by decide)

/-! ## Legacy precedence for geography -/

theorem find?_filter_other (ps : List (String × String)) (key k : String)
    (h : ¬ (k = key)) :
    (ps.filter (fun p => ¬ (p.1 = key))).find? (fun p => p.1 = k)
      = ps.find? (fun p => p.1 = k) := by
  induction ps with
  | nil => rfl
  | cons p rest ih =>
    by_cases hp : p.1 = k
    · rw [List.filter_cons_of_pos (by simp [hp, h]),
        List.find?_cons_of_pos _ (by simp [hp]), List.find?_cons_of_pos _ (by simp [hp])]
    · by_cases hk : p.1 = key
      · rw [List.filter_cons_of_neg (by simp [hk]),
          List.find?_cons_of_neg _ (by simp [hp])]
        exact ih
      · rw [List.filter_cons_of_pos (by simp [hk]),
          List.find?_cons_of_neg _ (by simp [hp]), List.find?_cons_of_neg _ (by simp [hp])]
        exact ih

theorem any_filter_other (ps : List (String × String)) (key k : String)
    (h : ¬ (k = key)) :
    (ps.filter (fun p => ¬ (p.1 = key))).any (fun p => p.1 = k)
      = ps.any (fun p => p.1 = k) := by
  induction ps with
  | nil => rfl
  | cons p rest ih =>
    by_cases hk : p.1 = key
    · rw [List.filter_cons_of_neg (by simp [hk]), List.any_cons, ih]
      have hp : ¬ (p.1 = k) := by
        rw [hk]
        intro hc
        exact h hc.symm
      simp [hp]
    · rw [List.filter_cons_of_pos (by simp [hk]), List.any_cons, List.any_cons, ih]

theorem getFirst_dropKey (r : Request) (key k : String) (h : ¬ (k = key)) :
    (r.dropKey key).getFirst k = r.getFirst k := by
  unfold Request.dropKey Request.getFirst
  exact congrArg (Option.map _) (find?_filter_other r.params key k h)

theorem hasKey_dropKey (r : Request) (key k : String) (h : ¬ (k = key)) :
    (r.dropKey key).hasKey k = r.hasKey k := by
  unfold Request.dropKey Request.hasKey
  exact any_filter_other r.params key k h

theorem require_any_geo_dropGeo (r : Request) :
    require_any (r.dropKey "geo") ["geo_value", "geo_values"] true
      = require_any r ["geo_value", "geo_values"] true := by
  unfold require_any
  simp only [List.any_cons, List.any_nil,
    getFirst_dropKey r "geo" "geo_value" (by decide),
    getFirst_dropKey r "geo" "geo_values" (by decide),
    hasKey_dropKey r "geo" "geo_value" (by decide),
    hasKey_dropKey r "geo" "geo_values" (by decide)]

theorem extract_strings_geo_dropGeo (r : Request) :
    extract_strings (r.dropKey "geo") ["geo_values", "geo_value"]
      = extract_strings r ["geo_values", "geo_value"] := by
  unfold extract_strings
  have e1 : (r.dropKey "geo").hasKey "geo_values" = r.hasKey "geo_values" :=
    hasKey_dropKey r "geo" "geo_values" (by decide)
  have e2 : (r.dropKey "geo").hasKey "geo_value" = r.hasKey "geo_value" :=
    hasKey_dropKey r "geo" "geo_value" (by decide)
  by_cases h1 : r.hasKey "geo_values" = true
  · have h1d : (r.dropKey "geo").hasKey "geo_values" = true := by
      rw [e1]
      exact h1
    rw [List.find?_cons_of_pos ["geo_value"] h1d, List.find?_cons_of_pos ["geo_value"] h1]
    dsimp only
    rw [getFirst_dropKey r "geo" "geo_values" (by decide)]
  · have h1d : ¬ ((r.dropKey "geo").hasKey "geo_values" = true) := by
      rw [e1]
      exact h1
    rw [List.find?_cons_of_neg ["geo_value"] h1d, List.find?_cons_of_neg ["geo_value"] h1]
    by_cases h2 : r.hasKey "geo_value" = true
    · have h2d : (r.dropKey "geo").hasKey "geo_value" = true := by
        rw [e2]
        exact h2
      rw [List.find?_cons_of_pos [] h2d, List.find?_cons_of_pos [] h2]
      dsimp only
      rw [getFirst_dropKey r "geo" "geo_value" (by decide)]
    · have h2d : ¬ ((r.dropKey "geo").hasKey "geo_value" = true) := by
        rw [e2]
        exact h2
      rw [List.find?_cons_of_neg [] h2d, List.find?_cons_of_neg [] h2]
      rfl

theorem parse_geo_filters_dropGeo (r : Request)
    (hgt : truthyOpt (r.getFirst "geo_type") = true) :
    parse_geo_filters (r.dropKey "geo") = parse_geo_filters r := by
  unfold parse_geo_filters
  rw [getFirst_dropKey r "geo" "geo_type" (by decide), if_pos hgt]
  simp only [require_any_geo_dropGeo, extract_strings_geo_dropGeo]
  rw [if_pos hgt]

/-- C6: when the legacy marker `geo_type` is supplied non-empty, the legacy
branch is followed exclusively — the result does not depend on the new-style
`geo` parameter even if it is also supplied — and the legacy spelling
`geo_type=state&geo_value=ca` produces the identical `GeoFilter` list as the
new-style `geo=state:ca`. -/
theorem legacy_geo_precedence :
    (∀ r : Request, truthyOpt (r.getFirst "geo_type") = true →
        parse_geo_filters r = parse_geo_filters (r.dropKey "geo"))
  ∧ parse_geo_filters ⟨[("geo_type", "state"), ("geo_value", "ca")]⟩
      = .ok [GeoFilter.mk "state" (.inr ["ca"])]
  ∧ parse_geo_filters ⟨[("geo", "state:ca")]⟩ = .ok [GeoFilter.mk "state" (.inr ["ca"])] := by
  refine ⟨?_, by decide, by decide⟩
  intro r hgt
  exact (parse_geo_filters_dropGeo r hgt).symm

/-- C6 witness: a request supplying both conventions parses identically with
and without its `geo` parameter. -/
theorem legacy_geo_precedence_witness :
    parse_geo_filters ⟨[("geo_type", "state"), ("geo_value", "ca"), ("geo", "county:06037")]⟩
      = parse_geo_filters
          (Request.dropKey ⟨[("geo_type", "state"), ("geo_value", "ca"), ("geo", "county:06037")]⟩
            "geo") :=
  legacy_geo_precedence.1 _ (by decide)
